import Mathlib

/-!
A shallow embedding of the lead-verification core of the repository
(`lead_verifier/merge.py`, `lead_verifier/orchestrator/service.py`,
`lead_verifier/rate_limit.py`, `lead_verifier/models.py`) together with
theorems settling the specification claims about it.

Python strings are modelled as Lean `String` (a structure around
`List Char`); Python exceptions as `Except String`; `None` as `Option`.
-/

namespace LeadScraper

/-! ## Python string primitives used by the code -/

/-- Python `str.lower()` (ASCII case, which is all the code relies on). -/
def pyLower (s : String) : String := ⟨s.data.map Char.toLower⟩

/-- Characters removed by Python `str.strip()` with no argument. -/
def isPySpace (c : Char) : Bool :=
  c == ' ' || c == '\t' || c == '\n' || c == '\r' || c == '\x0b' || c == '\x0c'

/-- Python `str.strip()`: drop whitespace from both ends. -/
def pyStrip (s : String) : String :=
  ⟨((s.data.dropWhile isPySpace).reverse.dropWhile isPySpace).reverse⟩

/-- `"".join(c for c in s if c.isdigit())`: keep only the digit characters. -/
def pyDigitsOnly (s : String) : String := ⟨s.data.filter Char.isDigit⟩

/-! ## Data model (`lead_verifier/models.py`) -/

/-- `ContactDetail`: one discovered contact fact. -/
structure ContactDetail where
  type : String
  value : String
  metadata : List (String × String) := []
deriving DecidableEq, Repr

/-- `LeadVerification`: the raw output of one scraper for one lead.
`raw_data` is an optional map; its values are modelled as strings
(the orchestrator only ever stores stringified errors there). -/
structure LeadVerification where
  source : String
  contacts : List ContactDetail := []
  raw_data : Option (List (String × String)) := none
deriving DecidableEq, Repr

/-- `AggregatedContact`: one deduplicated contact fact after merging. -/
structure AggregatedContact where
  type : String
  value : String
  sources : List String := []
deriving DecidableEq, Repr

/-- `LeadInput`: one normalized input record. -/
structure LeadInput where
  name : Option String := none
  phone : Option String := none
  email : Option String := none
  first_name : Option String := none
  last_name : Option String := none
  metadata : List (String × String) := []
deriving DecidableEq, Repr

/-- `AggregatedLeadResult`: the final per-lead output.  `raw_results`
holds the original verification list; entries may be Python `None`. -/
structure AggregatedLeadResult where
  lead : LeadInput
  contacts : List AggregatedContact := []
  raw_results : List (Option LeadVerification) := []
deriving DecidableEq, Repr

/-! ## Merge engine (`lead_verifier/merge.py`) -/

/-- `_normalise_contact`: strip the value, then lowercase it for email,
keep digits only for phone, lowercase otherwise (type tag compared
case-insensitively). -/
def normaliseContact (detail : ContactDetail) : String :=
  let value := pyStrip detail.value
  if pyLower detail.type = "email" then pyLower value
  else if pyLower detail.type = "phone" then pyDigitsOnly value
  else pyLower value

/-- The dedup key computed in `merge_lead_results`:
`f"\x7bcontact.type.lower()\x7d::\x7b_normalise_contact(contact)\x7d"`. -/
def dedupKey (c : ContactDetail) : String :=
  pyLower c.type ++ "::" ++ normaliseContact c

/-- The merge scan state: the `aggregated` dict together with
`ordered_keys`, represented as an association list in insertion order. -/
abbrev MergeState := List (String × AggregatedContact)

/-- Mutating `aggregated[key]` in place: append the source to the entry
with the given key unless already present.  Positions are preserved. -/
def updateSources (src : String) (k : String) : MergeState → MergeState
  | [] => []
  | (k₀, c) :: rest =>
    if k₀ = k then
      (k₀, if src ∈ c.sources then c else { c with sources := c.sources ++ [src] }) :: rest
    else (k₀, c) :: updateSources src k rest

/-- Process a single contact of one verification (inner loop body of
`merge_lead_results`; the local `key` variable is written out as
`dedupKey c`). -/
def scanContact (src : String) (st : MergeState) (c : ContactDetail) : MergeState :=
  if dedupKey c = "" then st
  else if dedupKey c ∈ st.map Prod.fst then updateSources src (dedupKey c) st
  else st ++ [(dedupKey c, { type := c.type, value := c.value, sources := [src] })]

/-- Process a single verification (outer loop body of `merge_lead_results`);
a `None` entry is skipped. -/
def scanVerification (st : MergeState) (r : Option LeadVerification) : MergeState :=
  match r with
  | none => st
  | some v => v.contacts.foldl (scanContact v.source) st

/-- `merge_lead_results`: merge contact details from multiple scrapers,
deduplicating by value. -/
def mergeLeadResults (lead : LeadInput) (results : List (Option LeadVerification)) :
    AggregatedLeadResult :=
  let st := results.foldl scanVerification []
  { lead := lead, contacts := st.map Prod.snd, raw_results := results }

/-! ## Orchestrator (`lead_verifier/orchestrator/service.py`)

A scraper is a name together with a `verify` function; a Python
exception raised by `verify` is modelled as `Except.error` carrying the
stringified exception. -/

structure Scraper where
  name : String
  verify : LeadInput → Except String LeadVerification

/-- `_execute_scraper`: run one scraper; on exception re-raise when
`raise_on_error`, otherwise swallow it into a synthetic result. -/
def executeScraper (raiseOnError : Bool) (s : Scraper) (lead : LeadInput) :
    Except String LeadVerification :=
  match s.verify lead with
  | .ok v => .ok v
  | .error exc =>
    if raiseOnError then .error exc
    else .ok { source := s.name, contacts := [], raw_data := some [("error", exc)] }

/-- The value `_execute_scraper` produces when `raise_on_error` is false
(it never raises in that mode). -/
def execResult (s : Scraper) (lead : LeadInput) : LeadVerification :=
  match s.verify lead with
  | .ok v => v
  | .error exc => { source := s.name, contacts := [], raw_data := some [("error", exc)] }

/-- The sequential branch of `_run_scrapers_for_lead`: invoke scrapers
one after another in configured order; a raised exception propagates,
discarding results collected so far. -/
def runSeq (raiseOnError : Bool) (lead : LeadInput) :
    List Scraper → Except String (List LeadVerification)
  | [] => .ok []
  | s :: rest =>
    match executeScraper raiseOnError s lead with
    | .error e => .error e
    | .ok v =>
      match runSeq raiseOnError lead rest with
      | .error e => .error e
      | .ok vs => .ok (v :: vs)

/-- Building the Python dict `{scraper.name: index for index, scraper in
enumerate(self._scrapers)}`: iterate with indices, a later duplicate name
overwriting an earlier binding. -/
def orderMapFold (src : String) : Nat → List String → Option Nat → Option Nat
  | _, [], acc => acc
  | i, n :: rest, acc => orderMapFold src (i + 1) rest (if n = src then some i else acc)

/-- `order_map.get(result.source, len(self._scrapers))`. -/
def orderMapGet (names : List String) (src : String) (d : Nat) : Nat :=
  (orderMapFold src 0 names none).getD d

/-- The sort key used by `results.sort(key=...)`. -/
def resultSortKey (scrapers : List Scraper) (r : LeadVerification) : Nat :=
  orderMapGet (scrapers.map Scraper.name) r.source scrapers.length

/-- One insertion step of a stable sort-by-key: the new element is placed
before the first existing element whose key is not smaller, which keeps
elements with equal keys in their original relative order, exactly as
Python's stable `list.sort` does. -/
def sInsert (key : α → Nat) (x : α) : List α → List α
  | [] => [x]
  | y :: ys => if key y < key x then y :: sInsert key x ys else x :: y :: ys

/-- Stable sort by a numeric key (model of Python `list.sort(key=...)`). -/
def sSort (key : α → Nat) : List α → List α
  | [] => []
  | x :: xs => sInsert key x (sSort key xs)

/-- The `as_completed` collection loop of the concurrent branch: futures
are consumed in completion order (given here as the list of scraper
indices `completion`); `future.result()` re-raises a stored exception.
An out-of-range index contributes nothing (it cannot arise for a real
completion order, which is a permutation of all scraper indices). -/
def collectCompleted (raiseOnError : Bool) (ss : List Scraper) (lead : LeadInput) :
    List Nat → Except String (List LeadVerification)
  | [] => .ok []
  | i :: rest =>
    match ss[i]? with
    | none => collectCompleted raiseOnError ss lead rest
    | some s =>
      match executeScraper raiseOnError s lead with
      | .error e => .error e
      | .ok v =>
        match collectCompleted raiseOnError ss lead rest with
        | .error e => .error e
        | .ok vs => .ok (v :: vs)

/-- The constructor arguments of `VerificationOrchestrator` that matter
to the core semantics (the merge function is the default
`merge_lead_results`; `max_workers` has no observable effect here). -/
structure OrchConfig where
  scrapers : List Scraper
  concurrent : Bool := false
  raiseOnError : Bool := false

/-- `_run_scrapers_for_lead`: sequential when not concurrent or with at
most one scraper; otherwise collect in completion order and re-sort by
configured scraper order. -/
def runScrapersForLead (cfg : OrchConfig) (completion : List Nat) (lead : LeadInput) :
    Except String (List LeadVerification) :=
  if cfg.concurrent = false ∨ cfg.scrapers.length ≤ 1 then
    runSeq cfg.raiseOnError lead cfg.scrapers
  else
    match collectCompleted cfg.raiseOnError cfg.scrapers lead completion with
    | .error e => .error e
    | .ok collected => .ok (sSort (resultSortKey cfg.scrapers) collected)

/-- The loop of `verify`: process leads in order, merging each lead's
results before moving on; `sched i` is the completion order of the
concurrent fan-out for the `i`-th lead. -/
def verifyLeads (cfg : OrchConfig) (sched : Nat → List Nat) :
    Nat → List LeadInput → Except String (List AggregatedLeadResult)
  | _, [] => .ok []
  | i, lead :: rest =>
    match runScrapersForLead cfg (sched i) lead with
    | .error e => .error e
    | .ok raw =>
      match verifyLeads cfg sched (i + 1) rest with
      | .error e => .error e
      | .ok others => .ok (mergeLeadResults lead (raw.map some) :: others)

/-- `VerificationOrchestrator.verify`. -/
def orchestratorVerify (cfg : OrchConfig) (sched : Nat → List Nat)
    (leads : List LeadInput) : Except String (List AggregatedLeadResult) :=
  verifyLeads cfg sched 0 leads

/-- Sources of the verifications in an `ok` payload (projection used to
state order-sensitivity facts). -/
def okSources (r : Except String (List LeadVerification)) : List String :=
  match r with
  | .ok l => l.map LeadVerification.source
  | .error _ => []

/-! ## Rate/delay wrapper (`lead_verifier/rate_limit.py`)

Wall-clock time is modelled as a natural-number clock threaded through
the call: `time.monotonic()` reads it, `time.sleep` advances it. -/

/-- The mutable state visible to `RateLimiter.acquire` and the sleeps of
`RateLimitedScraper.verify`: the current monotonic time and the
limiter's `_next_available` cursor. -/
structure ClockState where
  now : Nat
  nextAvailable : Nat
deriving DecidableEq, Repr

/-- `RateLimiter.acquire`: with no interval do nothing; otherwise sleep
until `_next_available` (if needed) and advance the cursor. -/
def rateLimiterAcquire (interval : Nat) (st : ClockState) : ClockState :=
  if interval = 0 then st
  else
    let wake := max st.now st.nextAvailable
    { now := wake, nextAvailable := wake + interval }

/-- `RateLimitedScraper`: a wrapped scraper plus the two throttling
policies (`60/calls_per_minute` interval, fixed post-call delay). -/
structure RateLimitedScraper where
  scraper : Scraper
  displayName : Option String := none
  interval : Nat := 0
  delaySeconds : Nat := 0

/-- The wrapper's `name` property: display-name override, else the
wrapped scraper's name. -/
def RateLimitedScraper.name (r : RateLimitedScraper) : String :=
  r.displayName.getD r.scraper.name

/-- `RateLimitedScraper.verify`: acquire the rate permit, delegate, then
sleep the fixed delay if configured.  An exception from the wrapped
scraper propagates (the post-delay sleep is skipped). -/
def RateLimitedScraper.verify (r : RateLimitedScraper) (lead : LeadInput)
    (st : ClockState) : Except String LeadVerification × ClockState :=
  let st₁ := rateLimiterAcquire r.interval st
  match r.scraper.verify lead with
  | .error e => (.error e, st₁)
  | .ok v =>
    (.ok v, if 0 < r.delaySeconds then { st₁ with now := st₁.now + r.delaySeconds } else st₁)

/-! ## Reference-semantics model for the `scrapers` property

`self._scrapers` is a Python list object living on a heap; the
`scrapers` property returns `list(self._scrapers)`, a freshly allocated
copy.  The heap is a list of list-objects addressed by index. -/

/-- A heap of scraper-list objects. -/
abbrev Store := List (List Scraper)

/-- Read a list object (an invalid reference reads as the empty list). -/
def storeGet (st : Store) (r : Nat) : List Scraper := (st[r]?).getD []

/-- Overwrite a list object in place (models any in-place mutation:
append, remove, reorder, clear). -/
def storeSet (st : Store) (r : Nat) (v : List Scraper) : Store := st.set r v

/-- Allocate a fresh list object, returning the new heap and reference. -/
def storeAlloc (st : Store) (v : List Scraper) : Store × Nat := (st ++ [v], st.length)

/-- An orchestrator object whose `_scrapers` attribute is a reference
into the heap. -/
structure OrchObj where
  scrapersRef : Nat
  concurrent : Bool := false
  raiseOnError : Bool := false

/-- The `scrapers` property: `return list(self._scrapers)` — allocate a
fresh copy of the internal list. -/
def scrapersProperty (st : Store) (o : OrchObj) : Store × Nat :=
  storeAlloc st (storeGet st o.scrapersRef)

/-- The orchestrator configuration an `OrchObj` denotes under a heap. -/
def orchFromStore (st : Store) (o : OrchObj) : OrchConfig :=
  { scrapers := storeGet st o.scrapersRef, concurrent := o.concurrent,
    raiseOnError := o.raiseOnError }

/-- `verify` as invoked on a heap-resident orchestrator object. -/
def verifyFromStore (st : Store) (o : OrchObj) (sched : Nat → List Nat)
    (leads : List LeadInput) : Except String (List AggregatedLeadResult) :=
  orchestratorVerify (orchFromStore st o) sched leads

/-! ## Spec-side definitions used by refinement claims -/

/-- The dedup-key normalization exactly as the specification words it:
email (type tag compared case-insensitively) lowercases the trimmed
value, phone keeps only the digit characters of the value, any other
type lowercases the trimmed value. -/
def specNormalize (value ty : String) : String :=
  if pyLower ty = "email" then pyLower (pyStrip value)
  else if pyLower ty = "phone" then pyDigitsOnly value
  else pyLower (pyStrip value)

/-- The dedup key as the specification words it:
`lowercase(type) + "::" + normalize(value, type)`. -/
def specDedupKey (c : ContactDetail) : String :=
  pyLower c.type ++ "::" ++ specNormalize c.value c.type

/-! ## Concrete fixtures used by witnesses and counterexamples -/

/-- A scraper named `"A"` that reports source `"A"`. -/
def scraperA : Scraper := { name := "A", verify := fun _ => .ok { source := "A" } }

/-- A scraper named `"B"` that reports source `"B"`. -/
def scraperB : Scraper := { name := "B", verify := fun _ => .ok { source := "B" } }

/-- A scraper named `"A"` whose result carries the unmatched source `"X"`. -/
def scraperX : Scraper := { name := "A", verify := fun _ => .ok { source := "X" } }

/-- A scraper named `"B"` whose result carries the unmatched source `"Y"`. -/
def scraperY : Scraper := { name := "B", verify := fun _ => .ok { source := "Y" } }

/-- A scraper whose `verify` always raises `RuntimeError("boom")`. -/
def boomScraper : Scraper := { name := "S", verify := fun _ => .error "boom" }

/-! ## Basic lemmas -/

/-- With `raise_on_error` false, `_execute_scraper` never raises. -/
lemma executeScraper_false (s : Scraper) (lead : LeadInput) :
    executeScraper false s lead = .ok (execResult s lead) := by
  unfold executeScraper execResult
  cases s.verify lead <;> simp

/-- The sequential fan-out with `raise_on_error` false yields exactly one
result per scraper, each a function of that scraper alone. -/
lemma runSeq_false (ss : List Scraper) (lead : LeadInput) :
    runSeq false lead ss = .ok (ss.map (fun s => execResult s lead)) := by
  induction ss with
  | nil => rfl
  | cons s rest ih => simp [runSeq, executeScraper_false, ih]

/-- None of the characters stripped by Python `str.strip()` is a digit. -/
lemma isPySpace_not_digit (c : Char) (h : isPySpace c = true) : c.isDigit = false := by
  unfold isPySpace at h
  have hc : c = ' ' ∨ c = '\t' ∨ c = '\n' ∨ c = '\r' ∨ c = '\x0b' ∨ c = '\x0c' := by
    simpa [or_assoc] using h
  rcases hc with rfl | rfl | rfl | rfl | rfl | rfl <;> rfl

/-- Dropping leading whitespace does not change the digit characters. -/
lemma filter_digit_dropWhile (l : List Char) :
    (l.dropWhile isPySpace).filter Char.isDigit = l.filter Char.isDigit := by
  induction l with
  | nil => rfl
  | cons a t ih =>
    rw [List.dropWhile_cons]
    by_cases h : isPySpace a = true
    · rw [if_pos h, ih, List.filter_cons, isPySpace_not_digit a h]
      simp
    · rw [if_neg h]

/-- Stripping whitespace does not change the digit characters. -/
lemma pyDigitsOnly_pyStrip (v : String) : pyDigitsOnly (pyStrip v) = pyDigitsOnly v := by
  unfold pyDigitsOnly pyStrip
  congr 1
  rw [List.filter_reverse, filter_digit_dropWhile, List.filter_reverse,
    List.reverse_reverse, filter_digit_dropWhile]

/-! ## Claims C3, C5, C6, C8, C9, C10 -/

/-- Claim C3: every contact's dedup key equals
`lowercase(type) ++ "::" ++ normalize(value, type)` with the
spec's type-specific normalization (email: lowercase trimmed value,
case-insensitive type tag; phone: digit characters of the value only;
other: lowercase trimmed value); consequently phone contacts
`"555-111-1111"` from source A and `"5551111111"` from source B merge
into exactly one phone `AggregatedContact` with sources `["A", "B"]`. -/
theorem claim_c3_dedup_key :
    (∀ c : ContactDetail, dedupKey c = specDedupKey c)
    ∧ (mergeLeadResults {}
        [some { source := "A", contacts := [{ type := "phone", value := "555-111-1111" }] },
          some { source := "B", contacts := [{ type := "phone", value := "5551111111" }] }]).contacts
      = [{ type := "phone", value := "555-111-1111", sources := ["A", "B"] }] := by
  constructor
  · intro c
    unfold dedupKey specDedupKey normaliseContact specNormalize
    by_cases h₁ : pyLower c.type = "email" <;> by_cases h₂ : pyLower c.type = "phone" <;>
      simp [h₁, h₂, pyDigitsOnly_pyStrip]
  · decide

/-- Claim C5: with `raise_on_error` false a scraper whose `verify` raises
contributes a synthetic result carrying its name, empty contacts and the
stringified error under `"error"`; and the per-lead result list is a
pointwise map over the scrapers, so one scraper's failure cannot remove
or alter another scraper's entry. -/
theorem claim_c5_failure_swallowed :
    (∀ (s : Scraper) (lead : LeadInput) (e : String), s.verify lead = .error e →
        executeScraper false s lead
          = .ok { source := s.name, contacts := [], raw_data := some [("error", e)] })
    ∧ ∀ (ss : List Scraper) (lead : LeadInput),
        runSeq false lead ss = .ok (ss.map (fun s => execResult s lead)) := by
  constructor
  · intro s lead e h
    simp [executeScraper, h]
  · intro ss lead
    exact runSeq_false ss lead

/-- Witness for C5 at the concrete `RuntimeError("boom")` scraper. -/
theorem claim_c5_witness :
    executeScraper false boomScraper {}
      = .ok { source := "S", contacts := [], raw_data := some [("error", "boom")] } :=
  claim_c5_failure_swallowed.1 boomScraper {} "boom" rfl

/-- Claim C6 (evaluation at the failing input): the computed dedup key is
never empty — it always contains `"::"` — so the merge engine's skip
branch is unreachable, and a phone contact whose value `"---"` has no
digits is still recorded as an `AggregatedContact` rather than ignored. -/
theorem claim_c6_empty_key_contact_recorded :
    (∀ c : ContactDetail, 0 < (dedupKey c).length)
    ∧ (mergeLeadResults {}
        [some { source := "A", contacts := [{ type := "phone", value := "---" }] }]).contacts
      = [{ type := "phone", value := "---", sources := ["A"] }] := by
  constructor
  · intro c
    unfold dedupKey
    rw [String.length_append, String.length_append]
    have h : ("::" : String).length = 2 := rfl
    omega
  · decide

/-- Claim C8: `merge_lead_results` tolerates `None` entries — a `None`
entry contributes no contacts and no sources, and `raw_results` is the
original input list unchanged, `None` entries included. -/
theorem claim_c8_none_tolerated :
    ∀ (lead : LeadInput) (xs ys : List (Option LeadVerification)),
      (mergeLeadResults lead (xs ++ none :: ys)).contacts
          = (mergeLeadResults lead (xs ++ ys)).contacts
      ∧ (mergeLeadResults lead (xs ++ none :: ys)).raw_results = xs ++ none :: ys := by
  intro lead xs ys
  refine ⟨?_, rfl⟩
  unfold mergeLeadResults
  simp [List.foldl_append, scanVerification]

/-- Witness for C8 at a concrete list with a `None` entry. -/
theorem claim_c8_witness :
    (mergeLeadResults {} ([some { source := "A" }] ++ none :: [])).contacts
        = (mergeLeadResults {} ([some { source := "A" }] ++ [])).contacts
    ∧ (mergeLeadResults {} ([some { source := "A" }] ++ none :: [])).raw_results
        = [some { source := "A" }] ++ none :: [] :=
  claim_c8_none_tolerated {} [some { source := "A" }] []

/-- Claim C9: the rate/delay wrapper's `verify` returns exactly the
wrapped scraper's outcome — it raises if and only if the wrapped
`verify` raises, propagating the same exception, and on success returns
the wrapped result unmodified (only the clock state differs). -/
theorem claim_c9_rate_wrapper_transparent :
    ∀ (r : RateLimitedScraper) (lead : LeadInput) (st : ClockState),
      (r.verify lead st).1 = r.scraper.verify lead := by
  intro r lead st
  unfold RateLimitedScraper.verify
  cases h : r.scraper.verify lead <;> simp [h]

/-- Claim C10: the `scrapers` property allocates a fresh copy of the
internal scraper list; overwriting the returned list object (any
mutation) leaves the internal list, and the outcome of any subsequent
`verify` call, unchanged. -/
theorem claim_c10_scrapers_copy :
    ∀ (st : Store) (o : OrchObj) (v : List Scraper) (sched : Nat → List Nat)
      (leads : List LeadInput), o.scrapersRef < st.length →
      storeGet (scrapersProperty st o).1 (scrapersProperty st o).2 = storeGet st o.scrapersRef
      ∧ storeGet (storeSet (scrapersProperty st o).1 (scrapersProperty st o).2 v) o.scrapersRef
          = storeGet st o.scrapersRef
      ∧ verifyFromStore (storeSet (scrapersProperty st o).1 (scrapersProperty st o).2 v) o
            sched leads
          = verifyFromStore st o sched leads := by
  intro st o v sched leads h
  have hne : st.length ≠ o.scrapersRef := (Nat.ne_of_lt h).symm
  have h₂ : storeGet (storeSet (scrapersProperty st o).1 (scrapersProperty st o).2 v)
      o.scrapersRef = storeGet st o.scrapersRef := by
    unfold scrapersProperty storeAlloc storeSet storeGet
    rw [List.getElem?_set_ne hne, List.getElem?_append_left h]
  refine ⟨?_, h₂, ?_⟩
  · unfold scrapersProperty storeAlloc storeGet
    simp
  · unfold verifyFromStore orchFromStore
    rw [h₂]

/-- Witness for C10 at a concrete one-element heap. -/
theorem claim_c10_witness :
    storeGet (scrapersProperty [[scraperA]] ⟨0, false, false⟩).1
        (scrapersProperty [[scraperA]] ⟨0, false, false⟩).2 = storeGet [[scraperA]] 0
    ∧ storeGet (storeSet (scrapersProperty [[scraperA]] ⟨0, false, false⟩).1
          (scrapersProperty [[scraperA]] ⟨0, false, false⟩).2 []) 0 = storeGet [[scraperA]] 0
    ∧ verifyFromStore (storeSet (scrapersProperty [[scraperA]] ⟨0, false, false⟩).1
          (scrapersProperty [[scraperA]] ⟨0, false, false⟩).2 []) ⟨0, false, false⟩
          (fun _ => []) []
        = verifyFromStore [[scraperA]] ⟨0, false, false⟩ (fun _ => []) [] :=
  claim_c10_scrapers_copy [[scraperA]] ⟨0, false, false⟩ [] (fun _ => []) [] (by decide)

/-! ## Stable-sort lemmas -/

lemma sInsert_perm (k : α → Nat) (x : α) (l : List α) :
    (sInsert k x l).Perm (x :: l) := by
  induction l with
  | nil => exact List.Perm.refl _
  | cons y ys ih =>
    unfold sInsert
    by_cases h : k y < k x
    · rw [if_pos h]
      exact (ih.cons y).trans (List.Perm.swap x y ys)
    · rw [if_neg h]

lemma sSort_perm (k : α → Nat) (l : List α) : (sSort k l).Perm l := by
  induction l with
  | nil => exact List.Perm.refl _
  | cons x xs ih =>
    exact (sInsert_perm k x (sSort k xs)).trans (ih.cons x)

lemma sInsert_pairwise (k : α → Nat) (x : α) (l : List α)
    (h : l.Pairwise (fun a b => k a ≤ k b)) :
    (sInsert k x l).Pairwise (fun a b => k a ≤ k b) := by
  induction l with
  | nil => simp [sInsert]
  | cons y ys ih =>
    rw [List.pairwise_cons] at h
    unfold sInsert
    by_cases hk : k y < k x
    · rw [if_pos hk, List.pairwise_cons]
      constructor
      · intro b hb
        rcases List.mem_cons.mp ((sInsert_perm k x ys).mem_iff.mp hb) with rfl | hb'
        · exact Nat.le_of_lt hk
        · exact h.1 b hb'
      · exact ih h.2
    · rw [if_neg hk, List.pairwise_cons]
      refine ⟨?_, List.pairwise_cons.mpr h⟩
      intro b hb
      rcases List.mem_cons.mp hb with rfl | hb'
      · exact Nat.le_of_not_lt hk
      · exact Nat.le_trans (Nat.le_of_not_lt hk) (h.1 b hb')

lemma sSort_pairwise (k : α → Nat) (l : List α) :
    (sSort k l).Pairwise (fun a b => k a ≤ k b) := by
  induction l with
  | nil => simp [sSort]
  | cons x xs ih => exact sInsert_pairwise k x (sSort k xs) ih

/-- Two lists that are permutations of each other, both sorted by a key
that is duplicate-free on them, are equal.  This is what makes the
orchestrator's re-sort independent of completion order when every
result's source matches a distinct scraper name. -/
lemma pairwise_perm_nodup_eq (k : α → Nat) :
    ∀ (l₁ l₂ : List α), l₁.Perm l₂ →
      l₁.Pairwise (fun a b => k a ≤ k b) → l₂.Pairwise (fun a b => k a ≤ k b) →
      (l₁.map k).Nodup → l₁ = l₂ := by
  intro l₁
  induction l₁ with
  | nil =>
    intro l₂ hp _ _ _
    exact List.Perm.nil_eq hp
  | cons a t₁ ih =>
    intro l₂ hp h₁ h₂ hnd
    cases l₂ with
    | nil => exact absurd hp.symm (by simp)
    | cons b t₂ =>
      rw [List.map_cons, List.nodup_cons] at hnd
      have hab : a = b := by
        by_contra hne
        have hb' : b ∈ t₁ := by
          rcases List.mem_cons.mp (hp.mem_iff.mpr (List.mem_cons_self b t₂)) with h | h
          · exact absurd h.symm hne
          · exact h
        have ha' : a ∈ t₂ := by
          rcases List.mem_cons.mp (hp.mem_iff.mp (List.mem_cons_self a t₁)) with h | h
          · exact absurd h hne
          · exact h
        have hk : k a = k b :=
          Nat.le_antisymm ((List.pairwise_cons.mp h₁).1 b hb')
            ((List.pairwise_cons.mp h₂).1 a ha')
        exact hnd.1 (hk ▸ List.mem_map_of_mem k hb')
      subst hab
      rw [ih t₂ hp.cons_inv (List.pairwise_cons.mp h₁).2 (List.pairwise_cons.mp h₂).2 hnd.2]

/-! ## Order-map lemmas -/

lemma orderMapFold_not_mem (src : String) :
    ∀ (l : List String) (i : Nat) (acc : Option Nat),
      src ∉ l → orderMapFold src i l acc = acc := by
  intro l
  induction l with
  | nil => intro i acc _; rfl
  | cons n rest ih =>
    intro i acc h
    rw [List.mem_cons, not_or] at h
    unfold orderMapFold
    rw [if_neg (fun hn => h.1 hn.symm), ih (i + 1) acc h.2]

lemma orderMapFold_nodup :
    ∀ (l : List String), l.Nodup → ∀ (j i : Nat) (h : j < l.length),
      orderMapFold (l.get ⟨j, h⟩) i l none = some (i + j) := by
  intro l
  induction l with
  | nil => intro _ j i h; exact absurd h (by simp)
  | cons n rest ih =>
    intro hnd j i h
    rw [List.nodup_cons] at hnd
    cases j with
    | zero =>
      show orderMapFold n (i + 1) rest (if n = n then some i else none) = some (i + 0)
      rw [if_pos rfl, orderMapFold_not_mem n rest (i + 1) (some i) hnd.1]
      rfl
    | succ j =>
      have hj : j < rest.length := Nat.lt_of_succ_lt_succ h
      have hsrc : (rest.get ⟨j, hj⟩) ∈ rest := List.get_mem rest j hj
      have hne : n ≠ rest.get ⟨j, hj⟩ := fun he => hnd.1 (he ▸ hsrc)
      show orderMapFold (rest.get ⟨j, hj⟩) (i + 1) rest
          (if n = rest.get ⟨j, hj⟩ then some i else none) = some (i + (j + 1))
      rw [if_neg hne, ih hnd.2 j (i + 1) hj]
      have harith : i + 1 + j = i + (j + 1) := by omega
      rw [harith]

lemma orderMapGet_get (l : List String) (hnd : l.Nodup) (j : Nat) (h : j < l.length) (d : Nat) :
    orderMapGet l (l.get ⟨j, h⟩) d = j := by
  unfold orderMapGet
  rw [orderMapFold_nodup l hnd j 0 h]
  simp

/-! ## Concurrent-collection lemmas -/

lemma collectCompleted_false (ss : List Scraper) (lead : LeadInput) :
    ∀ comp : List Nat,
      collectCompleted false ss lead comp
        = .ok (comp.filterMap (fun i => (ss[i]?).map (fun s => execResult s lead))) := by
  intro comp
  induction comp with
  | nil => rfl
  | cons i rest ih =>
    unfold collectCompleted
    cases h : ss[i]? with
    | none => simp [h, List.filterMap_cons, ih]
    | some s => simp [h, List.filterMap_cons, executeScraper_false, ih]

lemma filterMap_range_get (ss : List Scraper) (g : Scraper → β) :
    (List.range ss.length).filterMap (fun i => (ss[i]?).map g) = ss.map g := by
  induction ss with
  | nil => rfl
  | cons s t ih =>
    rw [List.length_cons, List.range_succ_eq_map, List.filterMap_cons]
    simp only [List.getElem?_cons_zero, Option.map_some', List.filterMap_map]
    rw [List.map_cons]
    congr 1
    simpa [Function.comp_def, Nat.succ_eq_add_one] using ih

/-! ## Claim C1 -/

/-- Counterexample to claim C1 as stated: with two scrapers named
`"A"`, `"B"` whose results carry unmatched sources `"X"`, `"Y"`, both
completion orders `[0, 1]` and `[1, 0]` are permutations of the scraper
indices, yet the re-sorted lists handed to the merge engine differ —
with several unmatched sources the stable sort leaves them in completion
order, so completion order does leak into `raw_results`. -/
theorem claim_c1_counterexample :
    (okSources (runScrapersForLead { scrapers := [scraperX, scraperY], concurrent := true } [0, 1] {})
        = okSources (runScrapersForLead { scrapers := [scraperX, scraperY], concurrent := true } [1, 0] {}))
      = False
    ∧ ([0, 1] : List Nat).Perm (List.range 2)
    ∧ ([1, 0] : List Nat).Perm (List.range 2) :=
  ⟨eq_false (by decide), by decide, by decide⟩

/-- Claim C1 as amended: provided every scraper's (possibly synthetic)
result carries that scraper's name as its `source` and the configured
names are distinct, every completion-order permutation of the collected
results re-sorts to the same configured-order list, so completion order
never affects the list handed to the merge engine. -/
theorem claim_c1_order_restored :
    ∀ (cfg : OrchConfig) (lead : LeadInput) (comp : List Nat),
      cfg.raiseOnError = false →
      (cfg.scrapers.map Scraper.name).Nodup →
      (∀ s ∈ cfg.scrapers, (execResult s lead).source = s.name) →
      comp.Perm (List.range cfg.scrapers.length) →
      runScrapersForLead cfg comp lead
        = .ok (cfg.scrapers.map (fun s => execResult s lead)) := by
  intro cfg lead comp hro hnd hsrc hperm
  unfold runScrapersForLead
  by_cases hbr : cfg.concurrent = false ∨ cfg.scrapers.length ≤ 1
  · rw [if_pos hbr, hro, runSeq_false]
  · rw [if_neg hbr, hro, collectCompleted_false]
    set ss := cfg.scrapers with hss
    set key := resultSortKey cfg.scrapers with hkey
    set base := ss.map (fun s => execResult s lead) with hbase
    have hlen : base.length = ss.length := List.length_map ss _
    have hget : ∀ (i : Nat) (h : i < base.length), key (base.get ⟨i, h⟩) = i := by
      intro i h
      have hi : i < ss.length := hlen ▸ h
      have h₁ : base.get ⟨i, h⟩ = execResult (ss.get ⟨i, hi⟩) lead := List.getElem_map _
      have h₂ : (execResult (ss.get ⟨i, hi⟩) lead).source = (ss.get ⟨i, hi⟩).name :=
        hsrc _ (List.get_mem ss i hi)
      have hin : i < (ss.map Scraper.name).length := by
        rw [List.length_map]; exact hi
      have h₃ : (ss.map Scraper.name).get ⟨i, hin⟩ = (ss.get ⟨i, hi⟩).name :=
        List.getElem_map _
      rw [h₁, hkey]
      unfold resultSortKey
      rw [h₂, ← hss, ← h₃]
      exact orderMapGet_get (ss.map Scraper.name) hnd i hin ss.length
    have hkeys : base.map key = List.range ss.length := by
      apply List.ext_getElem
      · rw [List.length_map, hlen, List.length_range]
      · intro i h₁ h₂
        rw [List.getElem_map, List.getElem_range]
        exact hget i (by rw [List.length_map] at h₁; exact h₁)
    have hsorted : base.Pairwise (fun a b => key a ≤ key b) := by
      have h : (base.map key).Pairwise (fun a b : Nat => a ≤ b) := by
        rw [hkeys]
        exact (List.pairwise_lt_range ss.length).imp Nat.le_of_lt
      exact List.pairwise_map.mp h
    have hndk : (base.map key).Nodup := by
      rw [hkeys]; exact List.nodup_range _
    have hcoll : (comp.filterMap (fun i => (ss[i]?).map (fun s => execResult s lead))).Perm base := by
      have := hperm.filterMap (fun i => (ss[i]?).map (fun s => execResult s lead))
      rw [filterMap_range_get ss] at this
      exact this
    have hfinal :
        sSort key (comp.filterMap (fun i => (ss[i]?).map (fun s => execResult s lead))) = base := by
      apply pairwise_perm_nodup_eq key
      · exact (sSort_perm key _).trans hcoll
      · exact sSort_pairwise key _
      · exact hsorted
      · have hp : ((sSort key _).map key).Perm (base.map key) :=
          ((sSort_perm key _).trans hcoll).map key
        exact hp.nodup_iff.mpr hndk
    show Except.ok
        (sSort key (comp.filterMap (fun i => (ss[i]?).map (fun s => execResult s lead))))
      = Except.ok base
    rw [hfinal]

/-- Witness for the amended C1: scrapers `[A, B]` reporting their own
names, completion order `[1, 0]` (reverse of configured), re-sorted back
to configured order. -/
theorem claim_c1_order_restored_witness :
    runScrapersForLead { scrapers := [scraperA, scraperB], concurrent := true } [1, 0] {}
      = .ok ([scraperA, scraperB].map (fun s => execResult s {})) :=
  claim_c1_order_restored { scrapers := [scraperA, scraperB], concurrent := true } {} [1, 0]
    rfl (by decide) (by intro s hs; fin_cases hs <;> rfl) (by decide)

/-! ## Claim C2 -/

lemma sSort_length (k : α → Nat) (l : List α) : (sSort k l).length = l.length :=
  (sSort_perm k l).length_eq

lemma length_filterMap_of_isSome (f : α → Option β) :
    ∀ l : List α, (∀ a ∈ l, (f a).isSome) → (l.filterMap f).length = l.length := by
  intro l
  induction l with
  | nil => intro _; rfl
  | cons a t ih =>
    intro h
    obtain ⟨b, hb⟩ := Option.isSome_iff_exists.mp (h a (List.mem_cons_self a t))
    rw [List.filterMap_cons, hb]
    simp only [List.length_cons]
    rw [ih (fun x hx => h x (List.mem_cons_of_mem a hx))]

/-- With `raise_on_error` false and a completion order that is a
permutation of the scraper indices, the per-lead fan-out succeeds and
returns exactly one verification per configured scraper. -/
lemma runScrapersForLead_ok (cfg : OrchConfig) (lead : LeadInput) (comp : List Nat)
    (hro : cfg.raiseOnError = false)
    (hperm : comp.Perm (List.range cfg.scrapers.length)) :
    ∃ raw, runScrapersForLead cfg comp lead = .ok raw
      ∧ raw.length = cfg.scrapers.length := by
  unfold runScrapersForLead
  by_cases hbr : cfg.concurrent = false ∨ cfg.scrapers.length ≤ 1
  · rw [if_pos hbr, hro, runSeq_false]
    exact ⟨_, rfl, List.length_map _ _⟩
  · rw [if_neg hbr, hro, collectCompleted_false]
    refine ⟨_, rfl, ?_⟩
    rw [sSort_length, length_filterMap_of_isSome]
    · exact hperm.length_eq.trans (List.length_range _)
    · intro i hi
      have hlt : i < cfg.scrapers.length :=
        List.mem_range.mp (hperm.mem_iff.mp hi)
      have hs : cfg.scrapers[i]? = some cfg.scrapers[i] := List.getElem?_eq_getElem hlt
      rw [hs]
      rfl

lemma verifyLeads_ok_shape (cfg : OrchConfig) (sched : Nat → List Nat)
    (hro : cfg.raiseOnError = false)
    (hsched : ∀ i, (sched i).Perm (List.range cfg.scrapers.length)) :
    ∀ (leads : List LeadInput) (i : Nat),
      ∃ res, verifyLeads cfg sched i leads = .ok res
        ∧ res.map AggregatedLeadResult.lead = leads
        ∧ ∀ r ∈ res, r.raw_results.length = cfg.scrapers.length := by
  intro leads
  induction leads with
  | nil => exact fun i => ⟨[], rfl, rfl, by simp⟩
  | cons lead rest ih =>
    intro i
    obtain ⟨raw, hraw, hlen⟩ := runScrapersForLead_ok cfg lead (sched i) hro (hsched i)
    obtain ⟨others, hov, holeads, holen⟩ := ih (i + 1)
    refine ⟨mergeLeadResults lead (raw.map some) :: others, ?_, ?_, ?_⟩
    · simp [verifyLeads, hraw, hov]
    · simp [mergeLeadResults, holeads]
    · intro r hr
      rcases List.mem_cons.mp hr with rfl | hr'
      · show (raw.map some).length = _
        rw [List.length_map]
        exact hlen
      · exact holen r hr'

/-- Claim C2: with `raise_on_error` false, `verify` returns exactly one
`AggregatedLeadResult` per input lead, in input order, and every
result's `raw_results` has one entry per configured scraper regardless
of how many scrapers failed. -/
theorem claim_c2_batch_shape :
    ∀ (cfg : OrchConfig) (sched : Nat → List Nat) (leads : List LeadInput),
      cfg.raiseOnError = false →
      (∀ i, (sched i).Perm (List.range cfg.scrapers.length)) →
      ∃ res, orchestratorVerify cfg sched leads = .ok res
        ∧ res.map AggregatedLeadResult.lead = leads
        ∧ ∀ r ∈ res, r.raw_results.length = cfg.scrapers.length := by
  intro cfg sched leads hro hsched
  exact verifyLeads_ok_shape cfg sched hro hsched leads 0

/-- Witness for C2: one failing scraper, one lead, sequential mode. -/
theorem claim_c2_witness :
    ∃ res, orchestratorVerify { scrapers := [boomScraper] } (fun _ => [0]) [{}] = .ok res
      ∧ res.map AggregatedLeadResult.lead = [{}]
      ∧ ∀ r ∈ res, r.raw_results.length = ({ scrapers := [boomScraper] } : OrchConfig).scrapers.length :=
  claim_c2_batch_shape { scrapers := [boomScraper] } (fun _ => [0]) [{}] rfl
    (by
      intro i
      show ([0] : List Nat).Perm (List.range 1)
      decide)

/-! ## Claim C7 -/

lemma verifyLeads_error_after (cfg : OrchConfig) (sched : Nat → List Nat)
    (lead : LeadInput) (e : String) :
    ∀ (pre : List LeadInput) (i : Nat) (rs : List AggregatedLeadResult),
      verifyLeads cfg sched i pre = .ok rs →
      runScrapersForLead cfg (sched (i + pre.length)) lead = .error e →
      ∀ tail, verifyLeads cfg sched i (pre ++ lead :: tail) = .error e := by
  intro pre
  induction pre with
  | nil =>
    intro i rs _ herr tail
    show verifyLeads cfg sched i (lead :: tail) = .error e
    have h0 : i + ([] : List LeadInput).length = i := rfl
    rw [h0] at herr
    simp [verifyLeads, herr]
  | cons p pre' ih =>
    intro i rs hok herr tail
    unfold verifyLeads at hok
    cases hrun : runScrapersForLead cfg (sched i) p with
    | error e₀ => rw [hrun] at hok; simp at hok
    | ok raw =>
      rw [hrun] at hok
      cases hrest : verifyLeads cfg sched (i + 1) pre' with
      | error e₀ => rw [hrest] at hok; simp at hok
      | ok others =>
        have harith : i + (p :: pre').length = (i + 1) + pre'.length := by
          simp [List.length_cons]
          omega
        rw [harith] at herr
        rw [List.cons_append]
        simp [verifyLeads, hrun, ih (i + 1) others hrest herr tail]

/-- Claim C7: with `raise_on_error` true, the first exception raised by
a scraper propagates out of `verify` unchanged — the sequential fan-out
aborts at the first failing scraper with that scraper's exception, and
once a lead's fan-out raises, `verify` on any batch whose processed
prefix succeeded returns that same error whatever leads follow, so no
list and no partial results are delivered. -/
theorem claim_c7_raise_aborts :
    (∀ (good : List Scraper) (f : Scraper) (rest : List Scraper) (lead : LeadInput)
        (e : String),
        (∀ g ∈ good, ∃ v, g.verify lead = .ok v) →
        f.verify lead = .error e →
        runSeq true lead (good ++ f :: rest) = .error e)
    ∧ ∀ (cfg : OrchConfig) (sched : Nat → List Nat) (pre : List LeadInput)
        (lead : LeadInput) (e : String) (rs : List AggregatedLeadResult),
        orchestratorVerify cfg sched pre = .ok rs →
        runScrapersForLead cfg (sched pre.length) lead = .error e →
        ∀ tail, orchestratorVerify cfg sched (pre ++ lead :: tail) = .error e := by
  constructor
  · intro good f rest lead e hgood hf
    induction good with
    | nil => simp [runSeq, executeScraper, hf]
    | cons g good' ih =>
      obtain ⟨v, hv⟩ := hgood g (List.mem_cons_self g good')
      have ih' := ih (fun g' hg' => hgood g' (List.mem_cons_of_mem g hg'))
      simp [runSeq, executeScraper, hv, ih']
  · intro cfg sched pre lead e rs hok herr tail
    have h0 : sched pre.length = sched (0 + pre.length) := by rw [Nat.zero_add]
    rw [h0] at herr
    exact verifyLeads_error_after cfg sched lead e pre 0 rs hok herr tail

/-- Witness for C7: a failing scraper after one succeeding scraper, and
a one-lead batch aborted by `boom`. -/
theorem claim_c7_witness :
    runSeq true {} ([scraperA] ++ boomScraper :: [scraperB]) = .error "boom"
    ∧ orchestratorVerify { scrapers := [boomScraper], raiseOnError := true }
        (fun _ => []) ([] ++ ({} : LeadInput) :: []) = .error "boom" :=
  ⟨claim_c7_raise_aborts.1 [scraperA] boomScraper [scraperB] {} "boom"
      (by intro g hg; fin_cases hg; exact ⟨_, rfl⟩) rfl,
    claim_c7_raise_aborts.2 { scrapers := [boomScraper], raiseOnError := true }
      (fun _ => []) [] {} "boom" [] rfl rfl []⟩

/-! ## Claim C4: full characterization of the merge scan

Spec-side definitions (named after the specification's wording, to be
compared with the merge engine translated from the source above). -/

/-- The `(source, contact)` pairs visited by the merge scan, in scan
order: verifications in order, each verification's contacts in order,
`None` entries contributing nothing. -/
def contactPairs (results : List (Option LeadVerification)) :
    List (String × ContactDetail) :=
  (results.map (fun r =>
    match r with
    | none => []
    | some v => v.contacts.map (fun c => (v.source, c)))).flatten

/-- Append an element unless already present (first occurrence kept). -/
def insertNew (acc : List String) (x : String) : List String :=
  if x ∈ acc then acc else acc ++ [x]

/-- The distinct elements of a list in first-seen order. -/
def firstSeen (xs : List String) : List String := xs.foldl insertNew []

/-- The dedup key of one scanned pair. -/
def pairKey (p : String × ContactDetail) : String := dedupKey p.2

/-- All scanned pairs carrying a given dedup key, in scan order. -/
def keyHits (ps : List (String × ContactDetail)) (k : String) :
    List (String × ContactDetail) :=
  ps.filter (fun q => pairKey q == k)

/-- The aggregated contact the specification prescribes for one dedup
key: the literal type and value of the first pair seen for the key, and
the contributing sources in first-contribution order without
duplicates. -/
def specContact (ps : List (String × ContactDetail)) (k : String) : AggregatedContact :=
  match keyHits ps k with
  | [] => { type := "", value := "", sources := [] }
  | (_, c) :: _ =>
    { type := c.type, value := c.value,
      sources := ((keyHits ps k).map Prod.fst).foldl insertNew [] }

/-- The merged contact list the specification prescribes: one entry per
distinct dedup key, in first-seen key order. -/
def specMerge (ps : List (String × ContactDetail)) : List AggregatedContact :=
  (firstSeen (ps.map pairKey)).map (specContact ps)

/-- The dedup key recomputed from an aggregated contact's literal type
and value. -/
def aggKey (c : AggregatedContact) : String :=
  dedupKey { type := c.type, value := c.value }

/-- One scan step on a `(source, contact)` pair. -/
def scanPair (st : MergeState) (p : String × ContactDetail) : MergeState :=
  scanContact p.1 st p.2

/-- The merge state the specification prescribes after scanning `ps`. -/
def stateSpec (ps : List (String × ContactDetail)) : MergeState :=
  (firstSeen (ps.map pairKey)).map (fun k => (k, specContact ps k))

/-! Basic lemmas about the dedup key and `insertNew`. -/

lemma dedupKey_pos (c : ContactDetail) : 0 < (dedupKey c).length := by
  unfold dedupKey
  rw [String.length_append, String.length_append]
  have h : ("::" : String).length = 2 := rfl
  omega

lemma dedupKey_ne_empty (c : ContactDetail) : ¬ dedupKey c = "" := by
  intro h
  have := dedupKey_pos c
  rw [h] at this
  exact absurd this (by decide)

lemma mem_insertNew (acc : List String) (x a : String) :
    a ∈ insertNew acc x ↔ a ∈ acc ∨ a = x := by
  unfold insertNew
  by_cases h : x ∈ acc
  · rw [if_pos h]
    constructor
    · exact Or.inl
    · rintro (ha | rfl)
      · exact ha
      · exact h
  · rw [if_neg h]
    simp

lemma mem_foldl_insertNew :
    ∀ (xs acc : List String) (a : String),
      a ∈ xs.foldl insertNew acc ↔ a ∈ acc ∨ a ∈ xs := by
  intro xs
  induction xs with
  | nil => simp
  | cons x xs ih =>
    intro acc a
    rw [List.foldl_cons, ih, mem_insertNew]
    simp [or_assoc]

lemma mem_firstSeen (xs : List String) (a : String) : a ∈ firstSeen xs ↔ a ∈ xs := by
  unfold firstSeen
  rw [mem_foldl_insertNew]
  simp

lemma insertNew_nodup (acc : List String) (x : String) (h : acc.Nodup) :
    (insertNew acc x).Nodup := by
  unfold insertNew
  by_cases hx : x ∈ acc
  · rw [if_pos hx]; exact h
  · rw [if_neg hx]
    simp [List.nodup_append, h, hx]

lemma foldl_insertNew_nodup :
    ∀ (xs acc : List String), acc.Nodup → (xs.foldl insertNew acc).Nodup := by
  intro xs
  induction xs with
  | nil => exact fun acc h => h
  | cons x xs ih =>
    intro acc h
    rw [List.foldl_cons]
    exact ih _ (insertNew_nodup acc x h)

lemma firstSeen_nodup (xs : List String) : (firstSeen xs).Nodup :=
  foldl_insertNew_nodup xs [] List.nodup_nil

lemma firstSeen_append_one (xs : List String) (x : String) :
    firstSeen (xs ++ [x]) = insertNew (firstSeen xs) x := by
  unfold firstSeen
  rw [List.foldl_append]
  rfl

/-! Flattening the nested scan into a scan over `contactPairs`. -/

lemma foldl_scanContact_map (src : String) :
    ∀ (cs : List ContactDetail) (st : MergeState),
      cs.foldl (scanContact src) st
        = (cs.map (fun c => (src, c))).foldl scanPair st := by
  intro cs
  induction cs with
  | nil => intro st; rfl
  | cons c cs ih =>
    intro st
    rw [List.foldl_cons, List.map_cons, List.foldl_cons]
    exact ih (scanContact src st c)

lemma foldl_scanVerification_eq :
    ∀ (results : List (Option LeadVerification)) (st : MergeState),
      results.foldl scanVerification st = (contactPairs results).foldl scanPair st := by
  intro results
  induction results with
  | nil => intro st; rfl
  | cons r rest ih =>
    intro st
    rw [List.foldl_cons, ih]
    unfold contactPairs
    rw [List.map_cons, List.flatten_cons, List.foldl_append]
    congr 1
    cases r with
    | none => rfl
    | some v => exact foldl_scanContact_map v.source v.contacts st

/-! Lemmas about `keyHits` and `updateSources`. -/

lemma keyHits_append (ps : List (String × ContactDetail)) (p : String × ContactDetail)
    (k : String) :
    keyHits (ps ++ [p]) k = keyHits ps k ++ if pairKey p = k then [p] else [] := by
  unfold keyHits
  rw [List.filter_append]
  congr 1
  by_cases h : pairKey p = k
  · simp [h]
  · simp [h]

lemma keyHits_eq_nil (ps : List (String × ContactDetail)) (k : String)
    (h : k ∉ ps.map pairKey) : keyHits ps k = [] := by
  rw [List.eq_nil_iff_forall_not_mem]
  intro q hq
  unfold keyHits at hq
  rw [List.mem_filter] at hq
  exact h (List.mem_map.mpr ⟨q, hq.1, by simpa using hq.2⟩)

lemma keyHits_ne_nil (ps : List (String × ContactDetail)) (k : String)
    (h : k ∈ ps.map pairKey) : keyHits ps k ≠ [] := by
  obtain ⟨q, hq, hqk⟩ := List.mem_map.mp h
  intro hnil
  have hmem : q ∈ keyHits ps k := by
    unfold keyHits
    rw [List.mem_filter]
    exact ⟨hq, by simp [hqk]⟩
  rw [hnil] at hmem
  exact absurd hmem (List.not_mem_nil q)

lemma keyHits_head_key (ps : List (String × ContactDetail)) (k : String)
    (q : String × ContactDetail) (t : List (String × ContactDetail))
    (h : keyHits ps k = q :: t) : pairKey q = k := by
  have hmem : q ∈ keyHits ps k := by
    rw [h]
    exact List.mem_cons_self q t
  unfold keyHits at hmem
  rw [List.mem_filter] at hmem
  simpa using hmem.2

/-- The in-place source update `merge_lead_results` performs on a repeat
key, as a function of one aggregated contact. -/
def updContact (src : String) (c : AggregatedContact) : AggregatedContact :=
  if src ∈ c.sources then c else { c with sources := c.sources ++ [src] }

lemma updContact_sources (src : String) (c : AggregatedContact) :
    updContact src c = { c with sources := insertNew c.sources src } := by
  unfold updContact insertNew
  by_cases h : src ∈ c.sources
  · rw [if_pos h, if_pos h]
  · rw [if_neg h, if_neg h]

lemma updateSources_map (src k : String) (g : String → AggregatedContact) :
    ∀ l : List String, l.Nodup →
      updateSources src k (l.map (fun x => (x, g x)))
        = l.map (fun x => (x, if x = k then updContact src (g x) else g x)) := by
  intro l
  induction l with
  | nil => intro _; rfl
  | cons a t ih =>
    intro hnd
    rw [List.nodup_cons] at hnd
    rw [List.map_cons, List.map_cons]
    unfold updateSources
    by_cases hak : a = k
    · rw [if_pos hak]
      congr 1
      · rw [if_pos hak]
        rfl
      · apply List.map_congr_left
        intro x hx
        rw [if_neg (fun (he : x = k) => hnd.1 ((he.trans hak.symm) ▸ hx))]
    · rw [if_neg hak, ih hnd.2]
      congr 1
      rw [if_neg hak]

lemma stateSpec_keys (ps : List (String × ContactDetail)) :
    (stateSpec ps).map Prod.fst = firstSeen (ps.map pairKey) := by
  unfold stateSpec
  rw [List.map_map]
  simp [Function.comp_def]

/-! The snoc step: scanning one more pair takes the prescribed state for
`ps` to the prescribed state for `ps ++ [p]`. -/

lemma specContact_append_other (ps : List (String × ContactDetail))
    (p : String × ContactDetail) (x : String) (hx : ¬ pairKey p = x) :
    specContact (ps ++ [p]) x = specContact ps x := by
  unfold specContact
  rw [keyHits_append, if_neg hx, List.append_nil]

lemma scanPair_stateSpec (ps : List (String × ContactDetail)) (p : String × ContactDetail) :
    scanPair (stateSpec ps) p = stateSpec (ps ++ [p]) := by
  have hkeys : (ps ++ [p]).map pairKey = ps.map pairKey ++ [pairKey p] := by
    rw [List.map_append]
    rfl
  show scanContact p.1 (stateSpec ps) p.2 = stateSpec (ps ++ [p])
  unfold scanContact
  rw [if_neg (dedupKey_ne_empty p.2)]
  by_cases hk : dedupKey p.2 ∈ (stateSpec ps).map Prod.fst
  · rw [if_pos hk]
    have hkK : pairKey p ∈ ps.map pairKey := by
      rw [stateSpec_keys, mem_firstSeen] at hk
      exact hk
    have hins : insertNew (firstSeen (ps.map pairKey)) (pairKey p)
        = firstSeen (ps.map pairKey) := by
      unfold insertNew
      rw [if_pos ((mem_firstSeen _ _).mpr hkK)]
    show updateSources p.1 (pairKey p) (stateSpec ps) = stateSpec (ps ++ [p])
    unfold stateSpec
    rw [hkeys, firstSeen_append_one, hins,
      updateSources_map p.1 (pairKey p) (specContact ps) _ (firstSeen_nodup _)]
    apply List.map_congr_left
    intro x hx
    by_cases hxk : x = pairKey p
    · rw [if_pos hxk]
      have hxp : pairKey p = x := hxk.symm
      have hne := keyHits_ne_nil ps x (hxp ▸ hkK)
      cases hh : keyHits ps x with
      | nil => exact absurd hh hne
      | cons q t =>
        obtain ⟨s₀, c₀⟩ := q
        have hhits : keyHits (ps ++ [p]) x = (s₀, c₀) :: (t ++ [p]) := by
          rw [keyHits_append, if_pos hxp, hh]
          rfl
        unfold specContact
        rw [hh, hhits, updContact_sources]
        show (x, (⟨c₀.type, c₀.value,
            insertNew (firstSeen (((s₀, c₀) :: t).map Prod.fst)) p.1⟩ : AggregatedContact))
          = (x, (⟨c₀.type, c₀.value,
            firstSeen (((s₀, c₀) :: (t ++ [p])).map Prod.fst)⟩ : AggregatedContact))
        have hmap : ((s₀, c₀) :: (t ++ [p])).map Prod.fst
            = (((s₀, c₀) :: t).map Prod.fst) ++ [p.1] := by
          simp
        rw [hmap, firstSeen_append_one]
    · rw [if_neg hxk, specContact_append_other ps p x (fun he => hxk he.symm)]
  · rw [if_neg hk]
    have hkK : pairKey p ∉ ps.map pairKey := by
      rw [stateSpec_keys, mem_firstSeen] at hk
      exact hk
    have hins : insertNew (firstSeen (ps.map pairKey)) (pairKey p)
        = firstSeen (ps.map pairKey) ++ [pairKey p] := by
      unfold insertNew
      rw [if_neg (fun hmem => hkK ((mem_firstSeen _ _).mp hmem))]
    show stateSpec ps
        ++ [(pairKey p, { type := p.2.type, value := p.2.value, sources := [p.1] })]
      = stateSpec (ps ++ [p])
    unfold stateSpec
    rw [hkeys, firstSeen_append_one, hins, List.map_append]
    congr 1
    · apply List.map_congr_left
      intro x hx
      have hxk : ¬ pairKey p = x := by
        intro he
        exact hkK (he ▸ (mem_firstSeen _ _).mp hx)
      rw [specContact_append_other ps p x hxk]
    · have hhits : keyHits (ps ++ [p]) (pairKey p) = [p] := by
        rw [keyHits_append, if_pos rfl, keyHits_eq_nil ps (pairKey p) hkK]
        rfl
      rw [List.map_cons, List.map_nil]
      unfold specContact
      rw [hhits]
      obtain ⟨src, c⟩ := p
      simp [insertNew]

lemma foldl_scanPair_spec :
    ∀ ps : List (String × ContactDetail), ps.foldl scanPair [] = stateSpec ps := by
  intro ps
  induction ps using List.reverseRecOn with
  | nil => rfl
  | append_singleton ps p ih =>
    rw [List.foldl_append, List.foldl_cons, List.foldl_nil, ih, scanPair_stateSpec]

/-- Claim C4: the merge output has exactly one `AggregatedContact` per
distinct dedup key, in first-seen key order; each carries the literal
type and value of the first contact seen for its key and the
contributing sources in first-contribution order without duplicates
(this is `specMerge`); and no two output contacts share a dedup key. -/
theorem claim_c4_merge_characterized :
    ∀ (lead : LeadInput) (results : List (Option LeadVerification)),
      (mergeLeadResults lead results).contacts = specMerge (contactPairs results)
      ∧ ((mergeLeadResults lead results).contacts.map aggKey).Nodup := by
  intro lead results
  have hc : (mergeLeadResults lead results).contacts
      = (firstSeen ((contactPairs results).map pairKey)).map
          (specContact (contactPairs results)) := by
    show (results.foldl scanVerification []).map Prod.snd = _
    rw [foldl_scanVerification_eq, foldl_scanPair_spec]
    unfold stateSpec
    rw [List.map_map]
    rfl
  refine ⟨hc, ?_⟩
  rw [hc, List.map_map]
  have hpt : ∀ x ∈ firstSeen ((contactPairs results).map pairKey),
      (aggKey ∘ specContact (contactPairs results)) x = (fun y => y) x := by
    intro x hx
    have hxK : x ∈ (contactPairs results).map pairKey := (mem_firstSeen _ _).mp hx
    have hne := keyHits_ne_nil _ _ hxK
    cases hh : keyHits (contactPairs results) x with
    | nil => exact absurd hh hne
    | cons q t =>
      obtain ⟨s₀, c₀⟩ := q
      have hq : pairKey (s₀, c₀) = x := keyHits_head_key _ _ _ _ hh
      show aggKey (specContact (contactPairs results) x) = x
      unfold specContact
      rw [hh]
      exact hq
  rw [List.map_congr_left hpt]
  simp only [List.map_id']
  exact firstSeen_nodup _

end LeadScraper
